import Mathlib

/-!
Shallow embedding of `src/main/utils/utils.py` of the timeSeriesAnalysis
repository, centred on the `to_supervised` windowing routine (source lines
53-95). Numpy arrays are modelled as nested lists of integers: a 2-D array is
a list of rows, a 3-D array a list of segments of rows. Fallible numpy
operations return `Except String`. The two array arguments of the routine are
threaded through the computation as an explicit store, so that the absence of
in-place mutation is a provable statement.
-/

/-- A 2-D numeric array: a list of rows. -/
abbrev Arr2 := List (List Int)

/-- A 3-D numeric array: a list of segments, each a list of rows. -/
abbrev Arr3 := List (List (List Int))

/-- The two array arguments of `to_supervised` (`train` and `train_label`),
kept in a store that every array read takes as input and that the routine
returns, so mutation (or its absence) is observable. -/
structure ArrStore where
  train : Arr3
  train_label : Arr2
deriving DecidableEq

/-- Python slice `l[a:b]` for `0 <= a <= b`: silently clamps at the end of
the list, never raises. -/
def pySlice {α : Type} (l : List α) (a b : Nat) : List α :=
  (l.drop a).take (b - a)

/-- `train.reshape((train.shape[0]*train.shape[1], train.shape[2]))`
(source line 68): row-major flattening of the 3-D array. -/
def npReshapeFlat (train : Arr3) : Arr2 := train.flatten

/-- Elementwise addition of two rows. -/
def addVec (a b : List Int) : List Int := List.zipWith (fun x y => x + y) a b

/-- Elementwise sum of a block of rows, as computed by `.sum(axis=1)` on a
stacked array of chunks (each chunk contributes one summed row). -/
def sumRows : Arr2 → List Int
  | [] => []
  | r :: rs => rs.foldl addVec r

/-- `k` consecutive chunks of `m` rows each, as produced by a successful
`np.split(rows, k)` with chunk size `m`. -/
def splitChunks (m : Nat) : Nat → Arr2 → List Arr2
  | 0, _ => []
  | Nat.succ k, rows => rows.take m :: splitChunks m k (rows.drop m)

/-- The value of `np.array(np.split(rows, n)).sum(axis=1)` when the split
succeeds: `n` chunks of `rows.length / n` rows, each summed elementwise. -/
def weeklyAgg (rows : Arr2) (n : Nat) : Arr2 :=
  (splitChunks (rows.length / n) n rows).map sumRows

/-- `np.array(np.split(rows, n)).sum(axis=1)` (source lines 85 and 87):
`np.split` raises a `ValueError` unless the number of rows is an exact
multiple of a positive `n`. -/
def npSplitSum (rows : Arr2) (n : Nat) : Except String Arr2 :=
  if n ≠ 0 ∧ rows.length % n = 0 then .ok (weeklyAgg rows n)
  else .error "ValueError: array split does not result in an equal division"

/-- `data[:, idx]` for an integer index list (numpy fancy indexing on axis 1,
source line 70): raises `IndexError` when an index is out of range, otherwise
picks the indexed columns of every row, in the order listed. -/
def npSelectCols (d : Arr2) (idx : List Nat) : Except String Arr2 :=
  if d.all (fun row => idx.all (fun i => decide (i < row.length))) then
    .ok (d.map (fun row => idx.map (fun i => row.getD i 0)))
  else .error "IndexError: index is out of bounds for axis 1"

/-- `np.delete(d, idx, axis=1)` (source line 69): raises `IndexError` when an
index is out of range, otherwise removes the indexed columns of every row. -/
def npDeleteCols (d : Arr2) (idx : List Nat) : Except String Arr2 :=
  if d.all (fun row => idx.all (fun i => decide (i < row.length))) then
    .ok (d.map (fun row => ((row.enum).filter (fun p => !(idx.contains p.1))).map Prod.snd))
  else .error "IndexError: index is out of bounds for axis 1"

/-- The dictionary returned by `to_supervised`, keys
`X, X_weekly, X_timestamp, y, y_weekly` (source lines 91-93). `np.array` over
a list of windows is modelled as the list of windows itself. -/
structure SupResults where
  X : List Arr2
  X_weekly : List Arr2
  X_timestamp : List Arr2
  y : List Arr2
  y_weekly : List Arr2
deriving DecidableEq

/-- The five empty accumulators of source line 66. -/
def emptyResults : SupResults := ⟨[], [], [], [], []⟩

/-- One iteration of the windowing loop body (source lines 75-89): compute
`in_end = in_start + n_input`, `out_start = in_end + 7*n_gap`,
`out_end = out_start + 7*n_out`; when `out_end <= len(data)` append the input
window, output window and timestamp window, plus the optional weekly
aggregations (output aggregation first, as in the source); otherwise leave the
accumulators unchanged. The store is only read (`st.train_label`). -/
def stepEmit (data data_timestamp : Arr2) (n_input n_out n_gap : Nat)
    (y_weekly_aggregation x_weekly_aggregation : Bool) (in_start : Nat)
    (acc : SupResults) (st : ArrStore) : Except String SupResults :=
  let in_end := in_start + n_input
  let out_start := in_end + 7 * n_gap
  let out_end := out_start + 7 * n_out
  if out_end ≤ data.length then
    match (if y_weekly_aggregation then
             Except.map (fun c => acc.y_weekly ++ [c])
               (npSplitSum (pySlice st.train_label out_start out_end) n_out)
           else .ok acc.y_weekly) with
    | .error e => .error e
    | .ok yw =>
      match (if x_weekly_aggregation then
               Except.map (fun c => acc.X_weekly ++ [c])
                 (npSplitSum (pySlice data in_start in_end) n_out)
             else .ok acc.X_weekly) with
      | .error e => .error e
      | .ok xw =>
        .ok { X := acc.X ++ [pySlice data in_start in_end],
              X_weekly := xw,
              X_timestamp := acc.X_timestamp ++ [pySlice data_timestamp out_start out_end],
              y := acc.y ++ [pySlice st.train_label out_start out_end],
              y_weekly := yw }
  else
    .ok acc

/-- The windowing loop (source lines 72-89): a fixed trip count
(`range(len(data) - (n_out + n_gap) * 7)`, empty when that quantity is not
positive), with the cursor `in_start` advanced by `day_increment` on every
iteration whether or not a sample was emitted. -/
def toSupervisedLoop (data data_timestamp : Arr2) (n_input n_out n_gap day_increment : Nat)
    (y_weekly_aggregation x_weekly_aggregation : Bool) :
    Nat → Nat → SupResults → ArrStore → Except String (SupResults × ArrStore)
  | 0, _, acc, st => .ok (acc, st)
  | Nat.succ k, in_start, acc, st =>
    match stepEmit data data_timestamp n_input n_out n_gap
        y_weekly_aggregation x_weekly_aggregation in_start acc st with
    | .error e => .error e
    | .ok acc2 =>
      toSupervisedLoop data data_timestamp n_input n_out n_gap day_increment
        y_weekly_aggregation x_weekly_aggregation k (in_start + day_increment) acc2 st

/-- `to_supervised` (source lines 53-95). The Python defaults are
`day_increment=7, numerical_columns_index=None, y_weekly_aggregation=False,
x_weekly_aggregation=False`; here every argument is passed explicitly. With
`numerical_columns_index=None`, line 69 `np.delete(data, None, axis=1)`
raises `IndexError`: numpy rejects a non-integer object used as an index
array, so the numeric/auxiliary partition is never performed. -/
def to_supervised (st : ArrStore) (n_input n_out n_gap day_increment : Nat)
    (numerical_columns_index : Option (List Nat))
    (y_weekly_aggregation x_weekly_aggregation : Bool) :
    Except String (SupResults × ArrStore) :=
  match numerical_columns_index with
  | none => .error "IndexError: arrays used as indices must be of integer (or boolean) type"
  | some idx =>
    match npDeleteCols (npReshapeFlat st.train) idx with
    | .error e => .error e
    | .ok data_timestamp =>
      match npSelectCols (npReshapeFlat st.train) idx with
      | .error e => .error e
      | .ok data =>
        toSupervisedLoop data data_timestamp n_input n_out n_gap day_increment
          y_weekly_aggregation x_weekly_aggregation
          (data.length - (n_out + n_gap) * 7) 0 emptyResults st

/-- The cursor positions visited by `k` loop iterations starting at `s`,
stepping by `day_increment`. -/
def cursorList (day_increment : Nat) : Nat → Nat → List Nat
  | 0, _ => []
  | Nat.succ k, s => s :: cursorList day_increment k (s + day_increment)

/-- Filter a cursor list by the emission guard `out_end <= T`. -/
def emitOf (T n_input n_out n_gap : Nat) (l : List Nat) : List Nat :=
  l.filter (fun s => decide (s + n_input + 7 * n_gap + 7 * n_out ≤ T))

/-- The cursors at which the loop emits a sample: multiples of
`day_increment` indexed below the trip count, passing the emission guard. -/
def emittedCursors (T n_input n_out n_gap day_increment : Nat) : List Nat :=
  emitOf T n_input n_out n_gap
    ((List.range (T - (n_out + n_gap) * 7)).map (fun k => k * day_increment))

/-- The closed-form sample count of the specification: the number of forward
cursor positions `0, day_increment, 2*day_increment, ...` whose output window
ends within `T` (the first `T` multiples already cover every candidate when
`1 ≤ n_input` and `1 ≤ day_increment`). -/
def sampleCount (T n_input n_out n_gap day_increment : Nat) : Nat :=
  (((List.range T).map (fun k => k * day_increment)).filter
    (fun s => decide (s + n_input + 7 * n_gap + 7 * n_out ≤ T))).length

/-- A segment of 7 daily rows; column 0 is the numeric feature (the day
index), column 1 an auxiliary timestamp column (day index plus 100). -/
def mkSeg (a : Nat) : List (List Int) :=
  (List.range 7).map (fun t => [((a + t : Nat) : Int), ((100 + a + t : Nat) : Int)])

/-- A 3-segment training tensor: 21 time steps, 2 raw columns. -/
def train21 : Arr3 := [mkSeg 0, mkSeg 7, mkSeg 14]

/-- 21 label rows, one value each: ten times the day index. -/
def label21 : Arr2 := (List.range 21).map (fun t => [((t : Nat) : Int) * 10])

/-- The 21-step store of the specification's worked example. -/
def st21 : ArrStore := ⟨train21, label21⟩

/-- Column 0 of the flattened 21-step tensor. -/
def sel21 : Arr2 := (List.range 21).map (fun t => [((t : Nat) : Int)])

/-- Column 1 of the flattened 21-step tensor. -/
def ts21 : Arr2 := (List.range 21).map (fun t => [((100 + t : Nat) : Int)])

/-- The result the worked example expects: two samples, cursors 0 and 7. -/
def c5Expected : SupResults :=
  { X := [pySlice sel21 0 7, pySlice sel21 7 14],
    X_weekly := [],
    X_timestamp := [pySlice ts21 7 14, pySlice ts21 14 21],
    y := [pySlice label21 7 14, pySlice label21 14 21],
    y_weekly := [] }

/-- A 2-segment training tensor: 14 time steps, 2 raw columns. -/
def train14 : Arr3 := [mkSeg 0, mkSeg 7]

/-- Only 10 label rows: shorter than the maximal emitted `out_end` (14). -/
def label10 : Arr2 := (List.range 10).map (fun t => [((t : Nat) : Int) * 10])

/-- A store whose labels are shorter than the flattened series. -/
def st14 : ArrStore := ⟨train14, label10⟩

/-- Column 0 of the flattened 14-step tensor. -/
def sel14 : Arr2 := (List.range 14).map (fun t => [((t : Nat) : Int)])

/-- Column 1 of the flattened 14-step tensor. -/
def ts14 : Arr2 := (List.range 14).map (fun t => [((100 + t : Nat) : Int)])

/-- What `to_supervised` returns on `st14`: one sample whose output window is
silently clamped to the three remaining label rows. -/
def c4Expected : SupResults :=
  { X := [pySlice sel14 0 7],
    X_weekly := [],
    X_timestamp := [pySlice ts14 7 14],
    y := [[[70], [80], [90]]],
    y_weekly := [] }

/-- A 4-segment training tensor: 28 time steps, 2 raw columns. -/
def train28 : Arr3 := [mkSeg 0, mkSeg 7, mkSeg 14, mkSeg 21]

/-- 28 label rows, ten times the day index. -/
def label28 : Arr2 := (List.range 28).map (fun t => [((t : Nat) : Int) * 10])

/-- The 28-step store. -/
def st28 : ArrStore := ⟨train28, label28⟩

/-- A 1-segment training tensor: 7 time steps. -/
def train7 : Arr3 := [mkSeg 0]

/-- 7 label rows. -/
def label7 : Arr2 := (List.range 7).map (fun t => [((t : Nat) : Int) * 10])

/-- A store small enough that the loop trip count is zero. -/
def st7 : ArrStore := ⟨train7, label7⟩

/-- The worked example's result with output aggregation requested: the same
samples plus the two weekly sums 70+...+130 and 140+...+200. -/
def c2Expected : SupResults :=
  { c5Expected with y_weekly := [[[700]], [[1190]]] }

/-- The input window of the sample at cursor `c`: `n_input` rows of the
numeric matrix starting at `c`. -/
def xWindow (data : Arr2) (n_input : Nat) (c : Nat) : Arr2 :=
  pySlice data c (c + n_input)

/-- The output-aligned window of the sample at cursor `c`: `7 * n_out` rows
starting `7 * n_gap` after the input window ends. -/
def yWindow (l : Arr2) (n_input n_gap n_out : Nat) (c : Nat) : Arr2 :=
  pySlice l (c + n_input + 7 * n_gap) (c + n_input + 7 * n_gap + 7 * n_out)

theorem length_pySlice {α : Type} (l : List α) (a b : Nat) :
    (pySlice l a b).length = min (b - a) (l.length - a) := by
  simp [pySlice]

theorem aggStep_ok (agg : Bool) (rows : Arr2) (n : Nat) (old v : List Arr2)
    (h : (if agg then Except.map (fun c => old ++ [c]) (npSplitSum rows n)
          else .ok old) = .ok v) :
    v = old ++ (if agg then [weeklyAgg rows n] else []) := by
  cases agg with
  | false =>
    simp only [Bool.false_eq_true, if_false] at h ⊢
    cases h
    simp
  | true =>
    simp only [if_true] at h ⊢
    unfold npSplitSum at h
    split at h
    · simp only [Except.map] at h
      cases h
      rfl
    · simp only [Except.map] at h
      cases h

theorem stepEmit_ok_char (data data_timestamp : Arr2) (ni no ng : Nat) (yagg xagg : Bool)
    (s : Nat) (acc : SupResults) (st : ArrStore) (acc2 : SupResults)
    (h : stepEmit data data_timestamp ni no ng yagg xagg s acc st = .ok acc2) :
    (s + ni + 7 * ng + 7 * no ≤ data.length ∧
      acc2 = { X := acc.X ++ [xWindow data ni s],
               X_weekly := acc.X_weekly ++ (if xagg then [weeklyAgg (xWindow data ni s) no] else []),
               X_timestamp := acc.X_timestamp ++ [yWindow data_timestamp ni ng no s],
               y := acc.y ++ [yWindow st.train_label ni ng no s],
               y_weekly := acc.y_weekly ++ (if yagg then [weeklyAgg (yWindow st.train_label ni ng no s) no] else []) }) ∨
    (data.length < s + ni + 7 * ng + 7 * no ∧ acc2 = acc) := by
  simp only [stepEmit] at h
  split at h
  · rename_i hg
    split at h
    · cases h
    · rename_i yw hyw
      split at h
      · cases h
      · rename_i xw hxw
        left
        cases h
        refine ⟨hg, ?_⟩
        have h1 := aggStep_ok yagg _ no _ _ hyw
        have h2 := aggStep_ok xagg _ no _ _ hxw
        simp only [xWindow, yWindow, h1, h2]
  · rename_i hg
    right
    cases h
    exact ⟨by omega, rfl⟩

theorem toSupervisedLoop_ok_char (data data_timestamp : Arr2) (ni no ng d : Nat)
    (yagg xagg : Bool) (st : ArrStore) :
    ∀ (k s : Nat) (acc r : SupResults) (st' : ArrStore),
      toSupervisedLoop data data_timestamp ni no ng d yagg xagg k s acc st = .ok (r, st') →
      st' = st ∧
      r.X = acc.X ++ (emitOf data.length ni no ng (cursorList d k s)).map (xWindow data ni) ∧
      r.y = acc.y ++ (emitOf data.length ni no ng (cursorList d k s)).map (yWindow st.train_label ni ng no) ∧
      r.X_timestamp = acc.X_timestamp ++
        (emitOf data.length ni no ng (cursorList d k s)).map (yWindow data_timestamp ni ng no) ∧
      r.y_weekly = acc.y_weekly ++
        (if yagg then (emitOf data.length ni no ng (cursorList d k s)).map
          (fun c => weeklyAgg (yWindow st.train_label ni ng no c) no) else []) ∧
      r.X_weekly = acc.X_weekly ++
        (if xagg then (emitOf data.length ni no ng (cursorList d k s)).map
          (fun c => weeklyAgg (xWindow data ni c) no) else []) := by
  intro k
  induction k with
  | zero =>
    intro s acc r st' h
    simp only [toSupervisedLoop] at h
    cases h
    simp [cursorList, emitOf]
  | succ k ih =>
    intro s acc r st' h
    simp only [toSupervisedLoop] at h
    cases he : stepEmit data data_timestamp ni no ng yagg xagg s acc st with
    | error e => rw [he] at h; cases h
    | ok acc2 =>
      rw [he] at h
      obtain ⟨hst, hX, hy, hts, hyw, hxw⟩ := ih (s + d) acc2 r st' h
      rcases stepEmit_ok_char data data_timestamp ni no ng yagg xagg s acc st acc2 he with
        ⟨hg, rfl⟩ | ⟨hg, rfl⟩
      · have hgb : decide (s + ni + 7 * ng + 7 * no ≤ data.length) = true := decide_eq_true hg
        refine ⟨hst, ?_, ?_, ?_, ?_, ?_⟩
        · simp only [cursorList, emitOf, List.filter_cons, hgb, if_true, List.map_cons] at hX ⊢
          simpa [List.append_assoc] using hX
        · simp only [cursorList, emitOf, List.filter_cons, hgb, if_true, List.map_cons] at hy ⊢
          simpa [List.append_assoc] using hy
        · simp only [cursorList, emitOf, List.filter_cons, hgb, if_true, List.map_cons] at hts ⊢
          simpa [List.append_assoc] using hts
        · simp only [cursorList, emitOf, List.filter_cons, hgb, if_true, List.map_cons] at hyw ⊢
          cases yagg <;> simp_all [List.append_assoc]
        · simp only [cursorList, emitOf, List.filter_cons, hgb, if_true, List.map_cons] at hxw ⊢
          cases xagg <;> simp_all [List.append_assoc]
      · have hgb : decide (s + ni + 7 * ng + 7 * no ≤ data.length) = false :=
          decide_eq_false (by omega)
        refine ⟨hst, ?_, ?_, ?_, ?_, ?_⟩ <;>
          simp only [cursorList, emitOf, List.filter_cons, hgb, Bool.false_eq_true, if_false] <;>
          assumption

theorem stepEmit_ok_exists (data data_timestamp : Arr2) (ni no ng : Nat) (yagg xagg : Bool)
    (s : Nat) (acc : SupResults) (st : ArrStore)
    (Hy : yagg = true → no ≠ 0 ∧ data.length ≤ st.train_label.length)
    (Hx : xagg = true → no ≠ 0 ∧ no ∣ ni) :
    ∃ acc2, stepEmit data data_timestamp ni no ng yagg xagg s acc st = .ok acc2 := by
  simp only [stepEmit]
  split
  · rename_i hg
    have hyw : ∃ yw, (if yagg then Except.map (fun c => acc.y_weekly ++ [c])
        (npSplitSum (pySlice st.train_label (s + ni + 7 * ng) (s + ni + 7 * ng + 7 * no)) no)
        else .ok acc.y_weekly) = .ok yw := by
      cases yagg with
      | false => exact ⟨acc.y_weekly, rfl⟩
      | true =>
        obtain ⟨hno, hlen⟩ := Hy rfl
        have hys : (pySlice st.train_label (s + ni + 7 * ng) (s + ni + 7 * ng + 7 * no)).length
            = 7 * no := by
          rw [length_pySlice]; omega
        have hmod : (pySlice st.train_label (s + ni + 7 * ng)
            (s + ni + 7 * ng + 7 * no)).length % no = 0 := by
          rw [hys]; exact Nat.mul_mod_left 7 no
        have hsplit : npSplitSum (pySlice st.train_label (s + ni + 7 * ng)
            (s + ni + 7 * ng + 7 * no)) no
            = .ok (weeklyAgg (pySlice st.train_label (s + ni + 7 * ng)
                (s + ni + 7 * ng + 7 * no)) no) := by
          unfold npSplitSum
          exact if_pos ⟨hno, hmod⟩
        rw [hsplit]
        exact ⟨_, rfl⟩
    obtain ⟨yw, hyw⟩ := hyw
    rw [hyw]
    have hxw : ∃ xw, (if xagg then Except.map (fun c => acc.X_weekly ++ [c])
        (npSplitSum (pySlice data s (s + ni)) no)
        else .ok acc.X_weekly) = .ok xw := by
      cases xagg with
      | false => exact ⟨acc.X_weekly, rfl⟩
      | true =>
        obtain ⟨hno, hdvd⟩ := Hx rfl
        have hxs : (pySlice data s (s + ni)).length = ni := by
          rw [length_pySlice]; omega
        have hmod : (pySlice data s (s + ni)).length % no = 0 := by
          rw [hxs]
          obtain ⟨c, rfl⟩ := hdvd
          exact Nat.mul_mod_right no c
        have hsplit : npSplitSum (pySlice data s (s + ni)) no
            = .ok (weeklyAgg (pySlice data s (s + ni)) no) := by
          unfold npSplitSum
          exact if_pos ⟨hno, hmod⟩
        rw [hsplit]
        exact ⟨_, rfl⟩
    obtain ⟨xw, hxw⟩ := hxw
    rw [hxw]
    exact ⟨_, rfl⟩
  · exact ⟨acc, rfl⟩

theorem toSupervisedLoop_ok_exists (data data_timestamp : Arr2) (ni no ng d : Nat)
    (yagg xagg : Bool) (st : ArrStore)
    (Hy : yagg = true → no ≠ 0 ∧ data.length ≤ st.train_label.length)
    (Hx : xagg = true → no ≠ 0 ∧ no ∣ ni) :
    ∀ (k s : Nat) (acc : SupResults),
      ∃ r, toSupervisedLoop data data_timestamp ni no ng d yagg xagg k s acc st = .ok (r, st) := by
  intro k
  induction k with
  | zero => intro s acc; exact ⟨acc, rfl⟩
  | succ k ih =>
    intro s acc
    obtain ⟨acc2, he⟩ := stepEmit_ok_exists data data_timestamp ni no ng yagg xagg s acc st Hy Hx
    obtain ⟨r, hr⟩ := ih (s + d) acc2
    refine ⟨r, ?_⟩
    simp only [toSupervisedLoop]
    rw [he]
    exact hr

theorem npSelectCols_ok_length (d : Arr2) (idx : List Nat) (d' : Arr2)
    (h : npSelectCols d idx = .ok d') : d'.length = d.length := by
  unfold npSelectCols at h
  split at h
  · cases h; simp
  · cases h

theorem npDeleteCols_ok_length (d : Arr2) (idx : List Nat) (d' : Arr2)
    (h : npDeleteCols d idx = .ok d') : d'.length = d.length := by
  unfold npDeleteCols at h
  split at h
  · cases h; simp
  · cases h

theorem cursorList_eq_range_map (d : Nat) :
    ∀ (k s : Nat), cursorList d k s = (List.range k).map (fun j => s + j * d) := by
  intro k
  induction k with
  | zero => intro s; simp [cursorList]
  | succ k ih =>
    intro s
    rw [cursorList, ih (s + d), List.range_succ_eq_map, List.map_cons, List.map_map]
    refine congrArg₂ _ (by simp) ?_
    refine List.map_congr_left ?_
    intro j _
    simp only [Function.comp_apply, Nat.succ_mul]
    omega

theorem emitOf_trips (T ni no ng d : Nat) :
    emitOf T ni no ng (cursorList d (T - (no + ng) * 7) 0) = emittedCursors T ni no ng d := by
  rw [cursorList_eq_range_map]
  unfold emittedCursors
  refine congrArg _ ?_
  refine List.map_congr_left ?_
  intro j _
  omega

theorem to_supervised_ok_char (st : ArrStore) (ni no ng d : Nat) (idx : List Nat)
    (yagg xagg : Bool) (r : SupResults) (st' : ArrStore)
    (hok : to_supervised st ni no ng d (some idx) yagg xagg = .ok (r, st')) :
    ∃ dsel dts, npSelectCols (npReshapeFlat st.train) idx = .ok dsel ∧
      npDeleteCols (npReshapeFlat st.train) idx = .ok dts ∧
      dsel.length = (npReshapeFlat st.train).length ∧
      dts.length = (npReshapeFlat st.train).length ∧
      st' = st ∧
      r.X = (emittedCursors (npReshapeFlat st.train).length ni no ng d).map (xWindow dsel ni) ∧
      r.y = (emittedCursors (npReshapeFlat st.train).length ni no ng d).map
        (yWindow st.train_label ni ng no) ∧
      r.X_timestamp = (emittedCursors (npReshapeFlat st.train).length ni no ng d).map
        (yWindow dts ni ng no) ∧
      r.y_weekly = (if yagg then (emittedCursors (npReshapeFlat st.train).length ni no ng d).map
        (fun c => weeklyAgg (yWindow st.train_label ni ng no c) no) else []) ∧
      r.X_weekly = (if xagg then (emittedCursors (npReshapeFlat st.train).length ni no ng d).map
        (fun c => weeklyAgg (xWindow dsel ni c) no) else []) := by
  simp only [to_supervised] at hok
  cases hdel : npDeleteCols (npReshapeFlat st.train) idx with
  | error e => rw [hdel] at hok; cases hok
  | ok dts =>
    rw [hdel] at hok
    cases hsel : npSelectCols (npReshapeFlat st.train) idx with
    | error e => rw [hsel] at hok; cases hok
    | ok dsel =>
      rw [hsel] at hok
      obtain ⟨hst, hX, hy, hts, hyw, hxw⟩ :=
        toSupervisedLoop_ok_char dsel dts ni no ng d yagg xagg st
          (dsel.length - (no + ng) * 7) 0 emptyResults r st' hok
      have hlsel : dsel.length = (npReshapeFlat st.train).length :=
        npSelectCols_ok_length _ _ _ hsel
      have hldel : dts.length = (npReshapeFlat st.train).length :=
        npDeleteCols_ok_length _ _ _ hdel
      simp only [emptyResults, List.nil_append] at hX hy hts hyw hxw
      rw [emitOf_trips, hlsel] at hX hy hts hyw hxw
      exact ⟨dsel, dts, rfl, rfl, hlsel, hldel, hst, hX, hy, hts, hyw, hxw⟩

theorem to_supervised_ok_exists (st : ArrStore) (ni no ng d : Nat) (idx : List Nat)
    (dsel dts : Arr2) (yagg xagg : Bool)
    (hsel : npSelectCols (npReshapeFlat st.train) idx = .ok dsel)
    (hdel : npDeleteCols (npReshapeFlat st.train) idx = .ok dts)
    (Hy : yagg = true → no ≠ 0 ∧ (npReshapeFlat st.train).length ≤ st.train_label.length)
    (Hx : xagg = true → no ≠ 0 ∧ no ∣ ni) :
    ∃ r, to_supervised st ni no ng d (some idx) yagg xagg = .ok (r, st) := by
  have hlsel : dsel.length = (npReshapeFlat st.train).length :=
    npSelectCols_ok_length _ _ _ hsel
  have Hy2 : yagg = true → no ≠ 0 ∧ dsel.length ≤ st.train_label.length := by
    intro hy
    obtain ⟨h1, h2⟩ := Hy hy
    exact ⟨h1, by omega⟩
  obtain ⟨r, hr⟩ := toSupervisedLoop_ok_exists dsel dts ni no ng d yagg xagg st Hy2 Hx
    (dsel.length - (no + ng) * 7) 0 emptyResults
  refine ⟨r, ?_⟩
  simp only [to_supervised]
  rw [hdel, hsel]
  exact hr

theorem countP_range_high (q : Nat → Bool) (m T : Nat) (hm : m ≤ T)
    (hq : ∀ j, m ≤ j → q j = false) :
    List.countP q (List.range T) = List.countP q (List.range m) := by
  have hT : T = m + (T - m) := by omega
  rw [hT, List.range_add, List.countP_append]
  have hz : List.countP q ((List.range (T - m)).map (fun x => m + x)) = 0 := by
    rw [List.countP_map, List.countP_eq_zero]
    intro a _
    simp [hq (m + a) (by omega)]
  omega

theorem emittedCursors_length (T ni no ng d : Nat) (hni : 1 ≤ ni) (hd : 1 ≤ d) :
    (emittedCursors T ni no ng d).length = sampleCount T ni no ng d := by
  unfold emittedCursors emitOf sampleCount
  rw [← List.countP_eq_length_filter, ← List.countP_eq_length_filter,
    List.countP_map, List.countP_map]
  have key : ∀ j, T - (no + ng) * 7 ≤ j →
      ((fun s => decide (s + ni + 7 * ng + 7 * no ≤ T)) ∘ (fun k => k * d)) j = false := by
    intro j hj
    simp only [Function.comp_apply, decide_eq_false_iff_not]
    have hjd : j ≤ j * d := Nat.le_mul_of_pos_right j (by omega)
    omega
  exact (countP_range_high _ _ _ (by omega) key).symm

theorem emittedCursors_pairwise (T ni no ng d : Nat) (hd : 1 ≤ d) :
    List.Pairwise (fun a b => a < b) (emittedCursors T ni no ng d) := by
  unfold emittedCursors emitOf
  refine List.Pairwise.filter _ ?_
  rw [List.pairwise_map]
  have base : List.Pairwise (fun a b => a < b) (List.range (T - (no + ng) * 7)) :=
    List.pairwise_lt_range _
  refine base.imp ?_
  intro a b hab
  exact Nat.mul_lt_mul_of_lt_of_le hab (Nat.le_refl d) (by omega)

theorem splitChunks_length (m : Nat) :
    ∀ (k : Nat) (rows : Arr2), (splitChunks m k rows).length = k := by
  intro k
  induction k with
  | zero => intro rows; rfl
  | succ k ih => intro rows; simp [splitChunks, ih]

theorem getD_map_of_lt {α β : Type} (f : α → β) (d : α) (d' : β) :
    ∀ (l : List α) (j : Nat), j < l.length → (l.map f).getD j d' = f (l.getD j d) := by
  intro l
  induction l with
  | nil => intro j hj; simp at hj
  | cons a l ih =>
    intro j hj
    cases j with
    | zero => simp
    | succ j =>
      simp only [List.map_cons, List.getD_cons_succ]
      exact ih j (by simpa using hj)

theorem splitChunks_getD (m : Nat) :
    ∀ (k : Nat) (rows : Arr2) (j : Nat), j < k →
      (splitChunks m k rows).getD j [] = (rows.drop (m * j)).take m := by
  intro k
  induction k with
  | zero => intro rows j hj; omega
  | succ k ih =>
    intro rows j hj
    cases j with
    | zero => simp [splitChunks]
    | succ j =>
      have hrec := ih (rows.drop m) j (by omega)
      simp only [splitChunks, List.getD_cons_succ]
      rw [hrec, List.drop_drop, Nat.mul_succ]
      congr 2
      omega

theorem getD_mem {α : Type} (l : List α) (j : Nat) (d : α) (hj : j < l.length) :
    l.getD j d ∈ l := by
  rw [List.getD_eq_getElem l d hj]
  exact List.getElem_mem hj

theorem pySlice_subset {α : Type} (l : List α) (a b : Nat) :
    ∀ x ∈ pySlice l a b, x ∈ l := by
  intro x hx
  unfold pySlice at hx
  exact List.mem_of_mem_drop (List.mem_of_mem_take hx)

theorem foldl_addVec_length (L : Nat) :
    ∀ (rows : Arr2) (acc : List Int), acc.length = L → (∀ r ∈ rows, r.length = L) →
      (rows.foldl addVec acc).length = L := by
  intro rows
  induction rows with
  | nil => intro acc h _; simpa using h
  | cons r rs ih =>
    intro acc h hall
    simp only [List.foldl_cons]
    refine ih (addVec acc r) ?_ ?_
    · simp only [addVec, List.length_zipWith, h, hall r (by simp)]
      omega
    · intro x hx
      exact hall x (by simp [hx])

theorem sumRows_length (rows : Arr2) (L : Nat) (hall : ∀ r ∈ rows, r.length = L)
    (hne : rows ≠ []) : (sumRows rows).length = L := by
  cases rows with
  | nil => exact absurd rfl hne
  | cons r rs =>
    exact foldl_addVec_length L rs r (hall r (by simp)) (fun x hx => hall x (by simp [hx]))

theorem weeklyAgg_getD (rows : Arr2) (n m : Nat) (hn : n ≠ 0) (hlen : rows.length = m * n)
    (j : Nat) (hj : j < n) :
    (weeklyAgg rows n).getD j [] = sumRows ((rows.drop (m * j)).take m) := by
  unfold weeklyAgg
  have hm : rows.length / n = m := by
    rw [hlen]
    exact Nat.mul_div_cancel _ (Nat.pos_of_ne_zero hn)
  rw [hm, getD_map_of_lt sumRows [] [] _ j (by rw [splitChunks_length]; exact hj),
    splitChunks_getD m n rows j hj]

theorem mem_emittedCursors (T ni no ng d c : Nat)
    (hc : c ∈ emittedCursors T ni no ng d) : c + ni + 7 * ng + 7 * no ≤ T := by
  unfold emittedCursors emitOf at hc
  exact of_decide_eq_true (List.mem_filter.mp hc).2

/-- C1: for every input with `n_input >= 1` and `day_increment >= 1` on which
`to_supervised` returns, the number of emitted samples equals the number of
forward cursor positions `0, day_increment, 2*day_increment, ...` for which
`in_start + n_input + 7*n_gap + 7*n_out <= total_time_steps`; that count
(`sampleCount`) is a pure function of `total_time_steps, n_input, n_out,
n_gap, day_increment` only, even though the loop's fixed trip count
`total_time_steps - (n_out + n_gap)*7` is bookkept separately from the
emission guard. -/
theorem c1_sample_count (st : ArrStore) (ni no ng d : Nat) (idx : List Nat)
    (yagg xagg : Bool) (r : SupResults) (st' : ArrStore)
    (hni : 1 ≤ ni) (hd : 1 ≤ d)
    (hok : to_supervised st ni no ng d (some idx) yagg xagg = .ok (r, st')) :
    r.X.length = sampleCount (npReshapeFlat st.train).length ni no ng d := by
  obtain ⟨dsel, dts, -, -, -, -, -, hX, -, -, -, -⟩ :=
    to_supervised_ok_char st ni no ng d idx yagg xagg r st' hok
  rw [hX, List.length_map]
  exact emittedCursors_length _ _ _ _ _ hni hd

/-- Witness for C1: the worked 21-step example has 2 samples, matching the
closed-form count. -/
theorem c1_sample_count_witness :
    c5Expected.X.length = sampleCount (npReshapeFlat st21.train).length 7 1 0 7 :=
  c1_sample_count st21 7 1 0 7 [0] false false c5Expected st21
    (by omega) (by omega) rfl

/-- C5: on the concrete input with `total_time_steps = 21, n_input = 7,
n_out = 1, n_gap = 0, day_increment = 7`, `to_supervised` emits exactly the 2
samples of cursors 0 (input rows 0..6, output rows 7..13) and 7 (input rows
7..13, output rows 14..20); cursor 14 (out_end 28 > 21) emits nothing. -/
theorem c5_worked_example :
    to_supervised st21 7 1 0 7 (some [0]) false false = .ok (c5Expected, st21) ∧
    c5Expected.X.length = 2 ∧
    c5Expected.X = [pySlice sel21 0 7, pySlice sel21 7 14] ∧
    c5Expected.y = [pySlice label21 7 14, pySlice label21 14 21] :=
  ⟨rfl, rfl, rfl, rfl⟩

/-- C9: with the default `numerical_columns_index = None`, the documented
numeric/auxiliary column partition is never performed: `np.delete(data, None,
axis=1)` (source line 69) raises `IndexError` for every input, so the default
argument is unusable under the spec's contract. -/
theorem c9_default_index_error (st : ArrStore) (ni no ng d : Nat) (yagg xagg : Bool) :
    to_supervised st ni no ng d none yagg xagg
      = .error "IndexError: arrays used as indices must be of integer (or boolean) type" :=
  rfl

/-- C10: `to_supervised` never writes into its array arguments: whenever it
returns, the store holding `train` and `train_label` comes back unchanged
(the routine only reshapes, slices and copies). -/
theorem c10_frame (st : ArrStore) (ni no ng d : Nat) (nci : Option (List Nat))
    (yagg xagg : Bool) (r : SupResults) (st' : ArrStore)
    (hok : to_supervised st ni no ng d nci yagg xagg = .ok (r, st')) :
    st' = st := by
  cases nci with
  | none =>
    simp only [to_supervised] at hok
    exact Except.noConfusion hok
  | some idx =>
    obtain ⟨dsel, dts, -, -, -, -, hst, -, -, -, -, -⟩ :=
      to_supervised_ok_char st ni no ng d idx yagg xagg r st' hok
    exact hst

/-- Witness for C10: the 21-step example call returns its store untouched. -/
theorem c10_frame_witness : st21 = st21 :=
  c10_frame st21 7 1 0 7 (some [0]) false false c5Expected st21 rfl

/-- C3: every emitted sample passes the guard `out_end <= total_time_steps`,
so all windows are full-length in-range reads (input windows have exactly
`n_input` rows, output and timestamp windows exactly `7*n_out` rows), and
every output window comes from a cursor whose `out_end` is within bounds; a
trailing cursor whose window would run past the end contributes nothing. -/
theorem c3_in_range (st : ArrStore) (ni no ng d : Nat) (idx : List Nat)
    (yagg xagg : Bool) (r : SupResults) (st' : ArrStore)
    (hok : to_supervised st ni no ng d (some idx) yagg xagg = .ok (r, st'))
    (hlab : (npReshapeFlat st.train).length ≤ st.train_label.length) :
    (∀ x ∈ r.X, x.length = ni) ∧
    (∀ yy ∈ r.y, yy.length = 7 * no) ∧
    (∀ t ∈ r.X_timestamp, t.length = 7 * no) ∧
    (∃ E : List Nat,
      (∀ c ∈ E, c + ni + 7 * ng + 7 * no ≤ (npReshapeFlat st.train).length) ∧
      r.y = E.map (yWindow st.train_label ni ng no)) := by
  obtain ⟨dsel, dts, hsel, hdel, hlsel, hldel, hst, hX, hy, hts, hyw, hxw⟩ :=
    to_supervised_ok_char st ni no ng d idx yagg xagg r st' hok
  refine ⟨?_, ?_, ?_,
    ⟨emittedCursors (npReshapeFlat st.train).length ni no ng d,
      fun c hc => mem_emittedCursors _ _ _ _ _ _ hc, hy⟩⟩
  · intro x hx
    rw [hX] at hx
    obtain ⟨c, hc, rfl⟩ := List.mem_map.mp hx
    have hg := mem_emittedCursors _ _ _ _ _ _ hc
    unfold xWindow
    rw [length_pySlice]
    omega
  · intro yy hyy
    rw [hy] at hyy
    obtain ⟨c, hc, rfl⟩ := List.mem_map.mp hyy
    have hg := mem_emittedCursors _ _ _ _ _ _ hc
    unfold yWindow
    rw [length_pySlice]
    omega
  · intro t ht
    rw [hts] at ht
    obtain ⟨c, hc, rfl⟩ := List.mem_map.mp ht
    have hg := mem_emittedCursors _ _ _ _ _ _ hc
    unfold yWindow
    rw [length_pySlice]
    omega

/-- Witness for C3: in the worked example, all input windows have 7 rows and
all output windows 7 rows. -/
theorem c3_in_range_witness :
    (∀ x ∈ c5Expected.X, x.length = 7) ∧ (∀ yy ∈ c5Expected.y, yy.length = 7 * 1) := by
  have h := c3_in_range st21 7 1 0 7 [0] false false c5Expected st21 rfl (by decide)
  exact ⟨h.1, h.2.1⟩

/-- C8: samples come in strictly increasing cursor order; the returned arrays
are parallel: `X`, `y` and `X_timestamp` (plus `y_weekly` and/or `X_weekly`
when their flag is set) all have the emitted-sample count as length, which is
at most the loop's iteration count; an aggregation array whose flag is off is
empty. -/
theorem c8_shape_order (st : ArrStore) (ni no ng d : Nat) (idx : List Nat)
    (yagg xagg : Bool) (r : SupResults) (st' : ArrStore) (dsel : Arr2)
    (hd : 1 ≤ d)
    (hsel : npSelectCols (npReshapeFlat st.train) idx = .ok dsel)
    (hok : to_supervised st ni no ng d (some idx) yagg xagg = .ok (r, st')) :
    List.Pairwise (fun a b => a < b)
      (emittedCursors (npReshapeFlat st.train).length ni no ng d) ∧
    r.X = (emittedCursors (npReshapeFlat st.train).length ni no ng d).map (xWindow dsel ni) ∧
    r.y.length = r.X.length ∧
    r.X_timestamp.length = r.X.length ∧
    (yagg = true → r.y_weekly.length = r.X.length) ∧
    (yagg = false → r.y_weekly = []) ∧
    (xagg = true → r.X_weekly.length = r.X.length) ∧
    (xagg = false → r.X_weekly = []) ∧
    r.X.length ≤ (npReshapeFlat st.train).length - (no + ng) * 7 := by
  obtain ⟨dsel2, dts, hsel2, hdel, hlsel, hldel, hst, hX, hy, hts, hyw, hxw⟩ :=
    to_supervised_ok_char st ni no ng d idx yagg xagg r st' hok
  have hds : dsel2 = dsel := by
    rw [hsel] at hsel2
    exact (Except.ok.inj hsel2).symm
  subst hds
  refine ⟨emittedCursors_pairwise _ _ _ _ _ hd, hX, ?_, ?_, ?_, ?_, ?_, ?_, ?_⟩
  · rw [hX, hy, List.length_map, List.length_map]
  · rw [hX, hts, List.length_map, List.length_map]
  · intro h
    rw [h] at hyw
    simp only [if_true] at hyw
    rw [hX, hyw, List.length_map, List.length_map]
  · intro h
    rw [h] at hyw
    simpa using hyw
  · intro h
    rw [h] at hxw
    simp only [if_true] at hxw
    rw [hX, hxw, List.length_map, List.length_map]
  · intro h
    rw [h] at hxw
    simpa using hxw
  · rw [hX, List.length_map]
    unfold emittedCursors emitOf
    calc (((List.range ((npReshapeFlat st.train).length - (no + ng) * 7)).map
          (fun k => k * d)).filter
          (fun s => decide (s + ni + 7 * ng + 7 * no ≤ (npReshapeFlat st.train).length))).length
        ≤ ((List.range ((npReshapeFlat st.train).length - (no + ng) * 7)).map
          (fun k => k * d)).length := List.length_filter_le _ _
      _ = (npReshapeFlat st.train).length - (no + ng) * 7 := by simp

/-- Witness for C8: in the worked example, the parallel arrays have equal
length and `X` is the slice map over the emitted cursors. -/
theorem c8_shape_order_witness :
    c5Expected.y.length = c5Expected.X.length ∧
    c5Expected.X
      = (emittedCursors (npReshapeFlat st21.train).length 7 1 0 7).map (xWindow sel21 7) := by
  have h := c8_shape_order st21 7 1 0 7 [0] false false c5Expected st21 sel21
    (by omega) rfl rfl
  exact ⟨h.2.2.1, h.2.1⟩

/-- C2: when `y_weekly_aggregation` is off, the returned `y_weekly` is empty;
when it is on (for contract-conforming inputs: `n_out >= 1`, labels at least
as long as the flattened series, uniform label dimension `L`), `y_weekly` has
shape (sample count, `n_out`, `L`) and its entry for sample `i`, week `j` is
the elementwise sum of rows `7*j .. 7*j+6` of that sample's non-aggregated
output window `y[i]`. -/
theorem c2_y_weekly (st : ArrStore) (ni no ng d : Nat) (idx : List Nat)
    (yagg xagg : Bool) (r : SupResults) (st' : ArrStore) (L : Nat)
    (hok : to_supervised st ni no ng d (some idx) yagg xagg = .ok (r, st')) :
    (yagg = false → r.y_weekly = []) ∧
    (yagg = true → 1 ≤ no →
      (npReshapeFlat st.train).length ≤ st.train_label.length →
      (∀ row ∈ st.train_label, row.length = L) →
      r.y_weekly.length = r.y.length ∧
      ∀ i, i < r.y_weekly.length →
        (r.y_weekly.getD i []).length = no ∧
        ∀ j, j < no →
          ((r.y_weekly.getD i []).getD j []).length = L ∧
          (r.y_weekly.getD i []).getD j []
            = sumRows (((r.y.getD i []).drop (7 * j)).take 7)) := by
  obtain ⟨dsel, dts, hsel, hdel, hlsel, hldel, hst, hX, hy, hts, hyw, hxw⟩ :=
    to_supervised_ok_char st ni no ng d idx yagg xagg r st' hok
  constructor
  · intro h
    rw [h] at hyw
    simpa using hyw
  · intro h hno hlab hrow
    rw [h] at hyw
    simp only [if_true] at hyw
    constructor
    · rw [hyw, hy, List.length_map, List.length_map]
    · intro i hi
      have hiE : i < (emittedCursors (npReshapeFlat st.train).length ni no ng d).length := by
        rw [hyw, List.length_map] at hi
        exact hi
      have hcmem : (emittedCursors (npReshapeFlat st.train).length ni no ng d).getD i 0
          ∈ emittedCursors (npReshapeFlat st.train).length ni no ng d :=
        getD_mem _ i 0 hiE
      have hg := mem_emittedCursors _ _ _ _ _ _ hcmem
      have hywi : r.y_weekly.getD i []
          = weeklyAgg (yWindow st.train_label ni ng no
              ((emittedCursors (npReshapeFlat st.train).length ni no ng d).getD i 0)) no := by
        rw [hyw]
        exact getD_map_of_lt _ 0 [] _ i hiE
      have hyi : r.y.getD i []
          = yWindow st.train_label ni ng no
              ((emittedCursors (npReshapeFlat st.train).length ni no ng d).getD i 0) := by
        rw [hy]
        exact getD_map_of_lt _ 0 [] _ i hiE
      have hyslen : (yWindow st.train_label ni ng no
          ((emittedCursors (npReshapeFlat st.train).length ni no ng d).getD i 0)).length
          = 7 * no := by
        unfold yWindow
        rw [length_pySlice]
        omega
      refine ⟨?_, ?_⟩
      · rw [hywi]
        unfold weeklyAgg
        rw [List.length_map, splitChunks_length]
      · intro j hj
        have hentry := weeklyAgg_getD _ no 7 (by omega) hyslen j hj
        have hchunklen : (((yWindow st.train_label ni ng no
            ((emittedCursors (npReshapeFlat st.train).length ni no ng d).getD i 0)).drop
              (7 * j)).take 7).length = 7 := by
          rw [List.length_take, List.length_drop, hyslen]
          omega
        refine ⟨?_, ?_⟩
        · rw [hywi, hentry]
          refine sumRows_length _ L ?_ ?_
          · intro rr hrr
            exact hrow rr (pySlice_subset _ _ _ rr
              (List.mem_of_mem_drop (List.mem_of_mem_take hrr)))
          · intro hnil
            rw [hnil] at hchunklen
            simp at hchunklen
        · rw [hywi, hyi, hentry]

/-- Witness for C2: in the aggregated worked example, the first weekly sum is
the elementwise sum of the first seven output rows. -/
theorem c2_y_weekly_witness :
    c2Expected.y_weekly.length = c2Expected.y.length ∧
    (c2Expected.y_weekly.getD 0 []).getD 0 []
      = sumRows (((c2Expected.y.getD 0 []).drop (7 * 0)).take 7) := by
  have h := c2_y_weekly st21 7 1 0 7 [0] true false c2Expected st21 1 rfl
  refine ⟨(h.2 rfl (by omega) (by decide) (by decide)).1, ?_⟩
  have h2 := (h.2 rfl (by omega) (by decide) (by decide)).2 0 (by decide)
  exact (h2.2 0 (by omega)).2

/-- C4 counterexample: a store whose labels (10 rows) are shorter than the
maximal emitted `out_end` (14) while the flattened series has 14 rows does
NOT make `to_supervised` fail with an indexing/shape error: Python slicing
clamps silently, and the call returns a result whose single output window
holds only the three remaining label rows. -/
theorem c4_counterexample :
    st14.train_label.length = 10 ∧
    (npReshapeFlat st14.train).length = 14 ∧
    to_supervised st14 7 1 0 7 (some [0]) false false = .ok (c4Expected, st14) ∧
    c4Expected.y = [[[70], [80], [90]]] :=
  ⟨rfl, rfl, rfl, rfl⟩

/-- C4 amended: with the aggregation flags off and a valid column index set,
`to_supervised` always returns a result, whatever the label length: a labels
array shorter than an emitted `out_end` does not raise; each emitted output
window is the silently clamped Python slice `train_label[out_start:out_end]`
(so it can have fewer than `7*n_out` rows). -/
theorem c4_amended (st : ArrStore) (ni no ng d : Nat) (idx : List Nat) (dsel dts : Arr2)
    (hsel : npSelectCols (npReshapeFlat st.train) idx = .ok dsel)
    (hdel : npDeleteCols (npReshapeFlat st.train) idx = .ok dts) :
    ∃ r, to_supervised st ni no ng d (some idx) false false = .ok (r, st) ∧
      r.y = (emittedCursors (npReshapeFlat st.train).length ni no ng d).map
        (yWindow st.train_label ni ng no) := by
  obtain ⟨r, hok⟩ := to_supervised_ok_exists st ni no ng d idx dsel dts false false hsel hdel
    (fun h => absurd h Bool.false_ne_true) (fun h => absurd h Bool.false_ne_true)
  obtain ⟨dsel2, dts2, hsel2, hdel2, hlsel, hldel, hst, hX, hy, hts, hyw, hxw⟩ :=
    to_supervised_ok_char st ni no ng d idx false false r st hok
  exact ⟨r, hok, hy⟩

/-- Witness for the amended C4: on the short-label store the call returns the
clamped result. -/
theorem c4_amended_witness :
    to_supervised st14 7 1 0 7 (some [0]) false false = .ok (c4Expected, st14) ∧
    c4Expected.y = (emittedCursors (npReshapeFlat st14.train).length 7 1 0 7).map
      (yWindow st14.train_label 7 0 1) := by
  obtain ⟨r, hok, hy⟩ := c4_amended st14 7 1 0 7 [0] sel14 ts14 rfl rfl
  have h0 : to_supervised st14 7 1 0 7 (some [0]) false false = .ok (c4Expected, st14) := rfl
  rw [h0] at hok
  have hr : c4Expected = r := congrArg Prod.fst (Except.ok.inj hok)
  exact ⟨h0, hr ▸ hy⟩

/-- C6: with input aggregation requested and at least one emitted sample, a
`n_input` not evenly divisible by `n_out` makes `to_supervised` fail with the
reshape/split error; with `n_out` dividing `n_input` the weekly input
aggregation succeeds, each entry summing one contiguous chunk of
`n_input / n_out` rows of the input window. -/
theorem c6_x_weekly (st : ArrStore) (ni no ng d : Nat) (idx : List Nat) (dsel dts : Arr2)
    (hsel : npSelectCols (npReshapeFlat st.train) idx = .ok dsel)
    (hdel : npDeleteCols (npReshapeFlat st.train) idx = .ok dts) :
    (¬ (no ∣ ni) → ni + 7 * ng + 7 * no ≤ (npReshapeFlat st.train).length →
      ∃ e, to_supervised st ni no ng d (some idx) false true = .error e) ∧
    ((no ∣ ni) → 1 ≤ no →
      ∃ r, to_supervised st ni no ng d (some idx) false true = .ok (r, st) ∧
        r.X_weekly.length = r.X.length ∧
        ∀ i, i < r.X_weekly.length →
          r.X_weekly.getD i [] = weeklyAgg (r.X.getD i []) no ∧
          ∀ j, j < no →
            (r.X_weekly.getD i []).getD j []
              = sumRows (((r.X.getD i []).drop (ni / no * j)).take (ni / no))) := by
  have hlsel := npSelectCols_ok_length _ _ _ hsel
  constructor
  · intro hdvd hfit
    have hni : 1 ≤ ni := by
      rcases Nat.eq_zero_or_pos ni with h | h
      · exact absurd (h ▸ dvd_zero no) hdvd
      · exact h
    have hg : 0 + ni + 7 * ng + 7 * no ≤ dsel.length := by omega
    have hXlen : (pySlice dsel 0 (0 + ni)).length = ni := by
      rw [length_pySlice]
      omega
    have hcond : ¬ (no ≠ 0 ∧ (pySlice dsel 0 (0 + ni)).length % no = 0) := by
      rw [hXlen]
      rintro ⟨hno, hmod⟩
      exact hdvd (Nat.dvd_of_mod_eq_zero hmod)
    have hsplit : npSplitSum (pySlice dsel 0 (0 + ni)) no
        = .error "ValueError: array split does not result in an equal division" := by
      unfold npSplitSum
      exact if_neg hcond
    have hstep : stepEmit dsel dts ni no ng false true 0 emptyResults st
        = .error "ValueError: array split does not result in an equal division" := by
      simp only [stepEmit]
      rw [if_pos hg]
      simp only [Bool.false_eq_true, if_false, if_true]
      rw [hsplit]
      rfl
    obtain ⟨k2, hk⟩ : ∃ k2, dsel.length - (no + ng) * 7 = k2 + 1 :=
      ⟨dsel.length - (no + ng) * 7 - 1, by omega⟩
    refine ⟨"ValueError: array split does not result in an equal division", ?_⟩
    simp only [to_supervised]
    rw [hdel, hsel]
    show toSupervisedLoop dsel dts ni no ng d false true
      (dsel.length - (no + ng) * 7) 0 emptyResults st = _
    rw [hk]
    simp only [toSupervisedLoop]
    rw [hstep]
  · intro hdvd hno
    obtain ⟨r, hok⟩ := to_supervised_ok_exists st ni no ng d idx dsel dts false true hsel hdel
      (fun h => absurd h Bool.false_ne_true) (fun _ => ⟨by omega, hdvd⟩)
    obtain ⟨dsel2, dts2, hsel2, hdel2, hlsel2, hldel2, hst, hX, hy, hts, hyw, hxw⟩ :=
      to_supervised_ok_char st ni no ng d idx false true r st hok
    have hds : dsel2 = dsel := by
      rw [hsel] at hsel2
      exact (Except.ok.inj hsel2).symm
    rw [hds] at hX hxw
    simp only [if_true] at hxw
    refine ⟨r, hok, ?_, ?_⟩
    · rw [hX, hxw, List.length_map, List.length_map]
    · intro i hi
      have hiE : i < (emittedCursors (npReshapeFlat st.train).length ni no ng d).length := by
        rw [hxw, List.length_map] at hi
        exact hi
      have hcmem := getD_mem (emittedCursors (npReshapeFlat st.train).length ni no ng d) i 0 hiE
      have hg := mem_emittedCursors _ _ _ _ _ _ hcmem
      have hxwi : r.X_weekly.getD i []
          = weeklyAgg (xWindow dsel ni
              ((emittedCursors (npReshapeFlat st.train).length ni no ng d).getD i 0)) no := by
        rw [hxw]
        exact getD_map_of_lt _ 0 [] _ i hiE
      have hXi : r.X.getD i []
          = xWindow dsel ni
              ((emittedCursors (npReshapeFlat st.train).length ni no ng d).getD i 0) := by
        rw [hX]
        exact getD_map_of_lt _ 0 [] _ i hiE
      have hXwlen : (xWindow dsel ni
          ((emittedCursors (npReshapeFlat st.train).length ni no ng d).getD i 0)).length
          = ni / no * no := by
        unfold xWindow
        rw [length_pySlice, Nat.div_mul_cancel hdvd]
        omega
      refine ⟨by rw [hxwi, hXi], ?_⟩
      intro j hj
      have hentry := weeklyAgg_getD _ no (ni / no) (by omega) hXwlen j hj
      rw [hxwi, hXi, hentry]

/-- Witness for C6: 7 inputs with 2 output weeks error out; 14 inputs with 2
output weeks succeed. -/
theorem c6_x_weekly_witness :
    (to_supervised st21 7 2 0 7 (some [0]) false true).isOk = false ∧
    (to_supervised st28 14 2 0 7 (some [0]) false true).isOk = true := by
  constructor
  · obtain ⟨e, he⟩ := (c6_x_weekly st21 7 2 0 7 [0] sel21 ts21 rfl rfl).1
      (by decide) (by decide)
    rw [he]
    rfl
  · obtain ⟨r, hok, -⟩ := (c6_x_weekly st28 14 2 0 7 [0]
      ((List.range 28).map (fun t => [((t : Nat) : Int)]))
      ((List.range 28).map (fun t => [((100 + t : Nat) : Int)])) rfl rfl).2
      (by decide) (by omega)
    rw [hok]
    rfl

/-- C7: when the loop trip count `total_time_steps - (n_out + n_gap)*7` is
zero or negative, `to_supervised` (with a valid column index set) raises no
error and returns a result whose five sample collections are all empty. -/
theorem c7_empty_result (st : ArrStore) (ni no ng d : Nat) (idx : List Nat)
    (dsel dts : Arr2) (yagg xagg : Bool)
    (hsel : npSelectCols (npReshapeFlat st.train) idx = .ok dsel)
    (hdel : npDeleteCols (npReshapeFlat st.train) idx = .ok dts)
    (hT : (((npReshapeFlat st.train).length : Int) - ((no : Int) + (ng : Int)) * 7 ≤ 0)) :
    to_supervised st ni no ng d (some idx) yagg xagg = .ok (emptyResults, st) := by
  have hlsel := npSelectCols_ok_length _ _ _ hsel
  have h0 : dsel.length - (no + ng) * 7 = 0 := by omega
  simp only [to_supervised]
  rw [hdel, hsel]
  show toSupervisedLoop dsel dts ni no ng d yagg xagg
    (dsel.length - (no + ng) * 7) 0 emptyResults st = _
  rw [h0]
  rfl

/-- Witness for C7: a 7-step store with one output week has trip count 0 and
yields the empty result even with both aggregation flags set. -/
theorem c7_empty_result_witness :
    to_supervised st7 3 1 0 7 (some [0]) true true = .ok (emptyResults, st7) :=
  c7_empty_result st7 3 1 0 7 [0]
    ((List.range 7).map (fun t => [((t : Nat) : Int)]))
    ((List.range 7).map (fun t => [((100 + t : Nat) : Int)]))
    true true rfl rfl (by decide)
